import Mathlib

/-!
Verification of the picoc089 lexer (`src/lexer.rs`) against its
natural-language specification.

The Rust scanner works on `Vec<char>` and uses the Unicode-aware character
class predicates `char::is_whitespace`, `char::is_numeric` and
`char::is_alphabetic`.  The program reads its input as raw bytes
reinterpreted one-to-one as characters, so every character the scanner ever
sees lies in the byte range U+0000..U+00FF; the three predicates below are
modelled exactly on that range (and agree with Rust on all of ASCII).
Panics (`todo!()`) are modelled with `Except Panic`.
-/

namespace Picoc

/-- Rust `char::is_whitespace` (Unicode `White_Space`), exact on the byte
range U+0000..U+00FF: tab, line feed, vertical tab, form feed, carriage
return (U+0009..U+000D), space, next line (U+0085), no-break space (U+00A0). -/
def rustIsWhitespace (c : Char) : Bool :=
  (9 ≤ c.toNat && c.toNat ≤ 13) || c.toNat = 32 || c.toNat = 0x85 || c.toNat = 0xA0

/-- Rust `char::is_numeric` (Unicode `Nd`/`Nl`/`No`), exact on the byte
range U+0000..U+00FF: the decimal digits plus superscript one, two, three
(U+00B9, U+00B2, U+00B3) and the vulgar fractions U+00BC..U+00BE. -/
def rustIsNumeric (c : Char) : Bool :=
  (48 ≤ c.toNat && c.toNat ≤ 57) || c.toNat = 0xB2 || c.toNat = 0xB3 || c.toNat = 0xB9 ||
    c.toNat = 0xBC || c.toNat = 0xBD || c.toNat = 0xBE

/-- Rust `char::is_alphabetic` (Unicode `Alphabetic`), exact on the byte
range U+0000..U+00FF: the ASCII letters, the ordinal indicators U+00AA and
U+00BA, the micro sign U+00B5, and the latin-1 letters U+00C0..U+00FF
without the multiplication and division signs U+00D7 and U+00F7. -/
def rustIsAlphabetic (c : Char) : Bool :=
  (65 ≤ c.toNat && c.toNat ≤ 90) || (97 ≤ c.toNat && c.toNat ≤ 122) ||
    c.toNat = 0xAA || c.toNat = 0xB5 || c.toNat = 0xBA ||
    (0xC0 ≤ c.toNat && c.toNat ≤ 0xFF && c.toNat ≠ 0xD7 && c.toNat ≠ 0xF7)

/-- The `enum Category` from `lexer.rs`. -/
inductive Category where
  | LiteralInt
  | Identifier
  | KeywordTypeInt
  | KeywordMain
  | KeywordVoid
  | KeywordReturn
  | Plus
  | Minus
  | Star
  | Slash
  | PuncLeftParen
  | PuncRightParen
  | PuncLeftBrace
  | PuncRightBrace
  | PuncSemiColon
deriving DecidableEq

/-- The `struct Token` from `lexer.rs`. -/
structure Token where
  lexeme : String
  category : Category
deriving DecidableEq

/-- The two `todo!()` sites in `lexer.rs`: the non-digit fallback of
`scan_int` and the non-lowercase fallback of `scan_id`. -/
inductive Panic where
  | scanIntTodo
  | scanIdTodo
deriving DecidableEq

/-- The function `skip_whitespace` from `lexer.rs`. -/
def skip_whitespace : List Char → List Char
  | [] => []
  | f :: r => if rustIsWhitespace f then skip_whitespace r else f :: r

/-- The reserved-word table of `scan_id` (`lexer.rs` lines 200-214). -/
def keyword_of (f : String) : Option Token :=
  if f = "int" then some ⟨"int", Category.KeywordTypeInt⟩
  else if f = "main" then some ⟨"main", Category.KeywordMain⟩
  else if f = "return" then some ⟨"return", Category.KeywordReturn⟩
  else none

/-- The keyword-or-identifier resolution of `scan_id`
(`lexer.rs` lines 216-222). -/
def resolve_id (f : String) : Token :=
  match keyword_of f with
  | some k => k
  | none => ⟨f, Category.Identifier⟩

mutual

/-- The function `scan` from `lexer.rs`.  The catch-all branch reproduces the source's
fabricated placeholder token `{ lexeme: "PANIC?", category: Plus }`. -/
def scan (input : List Char) : Except Panic (List Token) :=
  match hcs : skip_whitespace input with
  | [] => Except.ok []
  | f :: r =>
    if h0 : '0' ≤ f ∧ f ≤ '9' then scan_int (f :: r)
    else if ha : ('a' ≤ f ∧ f ≤ 'z') ∨ ('A' ≤ f ∧ f ≤ 'Z') then scan_id (f :: r)
    else if f = '+' then (scan r).map (fun ts => ⟨"+", Category.Plus⟩ :: ts)
    else if f = '-' then (scan r).map (fun ts => ⟨"-", Category.Minus⟩ :: ts)
    else if f = '*' then (scan r).map (fun ts => ⟨"*", Category.Star⟩ :: ts)
    else if f = '/' then (scan r).map (fun ts => ⟨"/", Category.Slash⟩ :: ts)
    else if f = '(' then (scan r).map (fun ts => ⟨"(", Category.PuncLeftParen⟩ :: ts)
    else if f = ')' then (scan r).map (fun ts => ⟨")", Category.PuncRightParen⟩ :: ts)
    else if f = '\x7b' then (scan r).map (fun ts => ⟨"\x7b", Category.PuncLeftBrace⟩ :: ts)
    else if f = '\x7d' then (scan r).map (fun ts => ⟨"\x7d", Category.PuncRightBrace⟩ :: ts)
    else if f = ';' then (scan r).map (fun ts => ⟨";", Category.PuncSemiColon⟩ :: ts)
    else (scan r).map (fun ts => ⟨"PANIC?", Category.Plus⟩ :: ts)
termination_by 2 * input.length + 1
decreasing_by
  all_goals
    have hsw : ∀ l : List Char, (skip_whitespace l).length ≤ l.length := by
      intro l
      induction l with
      | nil => simp [skip_whitespace]
      | cons a l ih =>
        simp only [skip_whitespace]
        split
        · exact Nat.le_trans ih (Nat.le_succ _)
        · exact Nat.le_refl _
  all_goals
    have hlen := hsw input
  all_goals
    rw [hcs] at hlen
  all_goals
    simp only [List.length_cons] at hlen
  all_goals
    try simp only [List.length_cons]
  all_goals
    omega

/-- The function `scan_int` from `lexer.rs`.  The `todo!()` fallback is modelled as
`Panic.scanIntTodo`. -/
def scan_int (input : List Char) : Except Panic (List Token) :=
  match hcs : skip_whitespace input with
  | [] => Except.ok []
  | f :: r =>
    if h0 : '0' ≤ f ∧ f ≤ '9' then
      (scan ((f :: r).dropWhile rustIsNumeric)).map
        (fun ts => ⟨String.mk ((f :: r).takeWhile rustIsNumeric), Category.LiteralInt⟩ :: ts)
    else Except.error Panic.scanIntTodo
termination_by 2 * input.length
decreasing_by
  have hsw : ∀ l : List Char, (skip_whitespace l).length ≤ l.length := by
    intro l
    induction l with
    | nil => simp [skip_whitespace]
    | cons a l ih =>
      simp only [skip_whitespace]
      split
      · exact Nat.le_trans ih (Nat.le_succ _)
      · exact Nat.le_refl _
  have hlen := hsw input
  rw [hcs] at hlen
  simp only [List.length_cons] at hlen
  have hnum : rustIsNumeric f = true := by
    simp only [rustIsNumeric, Bool.or_eq_true, Bool.and_eq_true, decide_eq_true_eq]
    left; left; left; left; left; left
    exact ⟨h0.1, h0.2⟩
  have hdrop : (f :: r).dropWhile rustIsNumeric = r.dropWhile rustIsNumeric := by
    simp [List.dropWhile, hnum]
  have hdlen : ∀ (p : Char → Bool) (l : List Char), (l.dropWhile p).length ≤ l.length := by
    intro p l
    induction l with
    | nil => simp
    | cons a l ih =>
      simp only [List.dropWhile]
      split
      · exact Nat.le_trans ih (Nat.le_succ _)
      · exact Nat.le_refl _
  have hd := hdlen rustIsNumeric r
  rw [hdrop]
  omega

/-- The function `scan_id` from `lexer.rs`.  Note the guard really is `'a'..='z'` in the
source, although `scan` dispatches every ASCII letter here; the `todo!()`
fallback is modelled as `Panic.scanIdTodo`. -/
def scan_id (input : List Char) : Except Panic (List Token) :=
  match hcs : skip_whitespace input with
  | [] => Except.ok []
  | f :: r =>
    if h0 : 'a' ≤ f ∧ f ≤ 'z' then
      (scan ((f :: r).dropWhile rustIsAlphabetic)).map
        (fun ts => resolve_id (String.mk ((f :: r).takeWhile rustIsAlphabetic)) :: ts)
    else Except.error Panic.scanIdTodo
termination_by 2 * input.length
decreasing_by
  have hsw : ∀ l : List Char, (skip_whitespace l).length ≤ l.length := by
    intro l
    induction l with
    | nil => simp [skip_whitespace]
    | cons a l ih =>
      simp only [skip_whitespace]
      split
      · exact Nat.le_trans ih (Nat.le_succ _)
      · exact Nat.le_refl _
  have hlen := hsw input
  rw [hcs] at hlen
  simp only [List.length_cons] at hlen
  have halpha : rustIsAlphabetic f = true := by
    simp only [rustIsAlphabetic, Bool.or_eq_true, Bool.and_eq_true, decide_eq_true_eq]
    left; left; left; left
    right
    exact ⟨h0.1, h0.2⟩
  have hdrop : (f :: r).dropWhile rustIsAlphabetic = r.dropWhile rustIsAlphabetic := by
    simp [List.dropWhile, halpha]
  have hdlen : ∀ (p : Char → Bool) (l : List Char), (l.dropWhile p).length ≤ l.length := by
    intro p l
    induction l with
    | nil => simp
    | cons a l ih =>
      simp only [List.dropWhile]
      split
      · exact Nat.le_trans ih (Nat.le_succ _)
      · exact Nat.le_refl _
  have hd := hdlen rustIsAlphabetic r
  rw [hdrop]
  omega

end

/-- Tags for the three mutually recursive scanners, used by the fuel-indexed
evaluator `scanFuel`. -/
inductive Mode where
  | dispatch
  | lit
  | ident
deriving DecidableEq

/-- Fuel-indexed evaluator mirroring the `scan`/`scan_int`/`scan_id`
recursion step for step: `Mode.dispatch`, `Mode.lit` and `Mode.ident`
correspond to `scan`, `scan_int` and `scan_id`, and `none` means the fuel
ran out.  It is structurally recursive, hence kernel-reducible; the theorem
`scanFuel_spec` (below) shows it computes the three scanners whenever the
fuel is at least twice the input length plus two. -/
def scanFuel : Nat → Mode → List Char → Option (Except Panic (List Token))
  | 0, _, _ => none
  | fuel + 1, m, input =>
    match skip_whitespace input with
    | [] => some (Except.ok [])
    | f :: r =>
      match m with
      | Mode.dispatch =>
        if '0' ≤ f ∧ f ≤ '9' then scanFuel fuel Mode.lit (f :: r)
        else if ('a' ≤ f ∧ f ≤ 'z') ∨ ('A' ≤ f ∧ f ≤ 'Z') then scanFuel fuel Mode.ident (f :: r)
        else if f = '+' then
          (scanFuel fuel Mode.dispatch r).map (Except.map (fun ts => ⟨"+", Category.Plus⟩ :: ts))
        else if f = '-' then
          (scanFuel fuel Mode.dispatch r).map (Except.map (fun ts => ⟨"-", Category.Minus⟩ :: ts))
        else if f = '*' then
          (scanFuel fuel Mode.dispatch r).map (Except.map (fun ts => ⟨"*", Category.Star⟩ :: ts))
        else if f = '/' then
          (scanFuel fuel Mode.dispatch r).map (Except.map (fun ts => ⟨"/", Category.Slash⟩ :: ts))
        else if f = '(' then
          (scanFuel fuel Mode.dispatch r).map
            (Except.map (fun ts => ⟨"(", Category.PuncLeftParen⟩ :: ts))
        else if f = ')' then
          (scanFuel fuel Mode.dispatch r).map
            (Except.map (fun ts => ⟨")", Category.PuncRightParen⟩ :: ts))
        else if f = '\x7b' then
          (scanFuel fuel Mode.dispatch r).map
            (Except.map (fun ts => ⟨"\x7b", Category.PuncLeftBrace⟩ :: ts))
        else if f = '\x7d' then
          (scanFuel fuel Mode.dispatch r).map
            (Except.map (fun ts => ⟨"\x7d", Category.PuncRightBrace⟩ :: ts))
        else if f = ';' then
          (scanFuel fuel Mode.dispatch r).map
            (Except.map (fun ts => ⟨";", Category.PuncSemiColon⟩ :: ts))
        else
          (scanFuel fuel Mode.dispatch r).map
            (Except.map (fun ts => ⟨"PANIC?", Category.Plus⟩ :: ts))
      | Mode.lit =>
        if '0' ≤ f ∧ f ≤ '9' then
          (scanFuel fuel Mode.dispatch ((f :: r).dropWhile rustIsNumeric)).map
            (Except.map
              (fun ts => ⟨String.mk ((f :: r).takeWhile rustIsNumeric), Category.LiteralInt⟩ :: ts))
        else some (Except.error Panic.scanIntTodo)
      | Mode.ident =>
        if 'a' ≤ f ∧ f ≤ 'z' then
          (scanFuel fuel Mode.dispatch ((f :: r).dropWhile rustIsAlphabetic)).map
            (Except.map
              (fun ts => resolve_id (String.mk ((f :: r).takeWhile rustIsAlphabetic)) :: ts))
        else some (Except.error Panic.scanIdTodo)

/-- Concatenation of the lexemes of a token sequence, as a character list
(spec §3: "concatenating all token lexemes"). -/
def concatLexemes (ts : List Token) : List Char :=
  ts.foldr (fun t acc => t.lexeme.data ++ acc) []

/-- The characters that begin a valid lexeme under the grammar of spec §4.2:
decimal digits, ASCII letters, the four operators and the five punctuation
marks. -/
def recognized (c : Char) : Bool :=
  ('0' ≤ c && c ≤ '9') || ('a' ≤ c && c ≤ 'z') || ('A' ≤ c && c ≤ 'Z') ||
    c = '+' || c = '-' || c = '*' || c = '/' || c = '(' || c = ')' ||
    c = '\x7b' || c = '\x7d' || c = ';'

/-- Like `recognized` but with the letters restricted to the lowercase range
that `scan_id` actually accepts. -/
def recognizedLower (c : Char) : Bool :=
  ('0' ≤ c && c ≤ '9') || ('a' ≤ c && c ≤ 'z') ||
    c = '+' || c = '-' || c = '*' || c = '/' || c = '(' || c = ')' ||
    c = '\x7b' || c = '\x7d' || c = ';'

/-- Modelled from the spec (§4.1 WhitespaceSkipper contract), for comparison
with the source's `skip_whitespace`: "returns the suffix with all leading
whitespace characters (space, tab, newline, carriage return) removed". -/
def skip_whitespace_spec (input : List Char) : List Char :=
  input.dropWhile (fun c => c = ' ' || c = '\t' || c = '\n' || c = '\r')

/-- Modelled from the spec (§5 together with §4.2), for the well-formedness
hypothesis of the totality claim: an input is well formed when every
non-whitespace character begins a valid lexeme. -/
def well_formed_spec (input : List Char) : Bool :=
  input.all (fun c => rustIsWhitespace c || recognized c)

/-! ### Helper lemmas -/

theorem skip_whitespace_eq_dropWhile (l : List Char) :
    skip_whitespace l = l.dropWhile rustIsWhitespace := by
  induction l with
  | nil => rfl
  | cons a l ih =>
    rw [List.dropWhile_cons]
    simp only [skip_whitespace]
    by_cases h : rustIsWhitespace a
    · simp [h, ih]
    · simp [h]

theorem skip_whitespace_length_le (l : List Char) :
    (skip_whitespace l).length ≤ l.length := by
  rw [skip_whitespace_eq_dropWhile]
  exact (List.dropWhile_sublist rustIsWhitespace).length_le

theorem mem_skip_whitespace {c : Char} {l : List Char} (h : c ∈ skip_whitespace l) : c ∈ l := by
  rw [skip_whitespace_eq_dropWhile] at h
  exact (List.dropWhile_sublist rustIsWhitespace).mem h

theorem skip_whitespace_head_not_ws {l f : _} {r : List Char}
    (h : skip_whitespace l = f :: r) : rustIsWhitespace f = false := by
  induction l with
  | nil => simp [skip_whitespace] at h
  | cons a l ih =>
    simp only [skip_whitespace] at h
    by_cases hw : rustIsWhitespace a
    · rw [if_pos hw] at h
      exact ih h
    · rw [if_neg hw] at h
      cases h
      exact Bool.not_eq_true _ ▸ (by simpa using hw)

theorem skip_whitespace_cons_of_neg {f : Char} {r : List Char}
    (h : rustIsWhitespace f = false) : skip_whitespace (f :: r) = f :: r := by
  simp [skip_whitespace, h]

theorem digit_imp_numeric {f : Char} (h0 : '0' ≤ f) (h9 : f ≤ '9') :
    rustIsNumeric f = true := by
  simp only [rustIsNumeric, Bool.or_eq_true, Bool.and_eq_true, decide_eq_true_eq]
  left; left; left; left; left; left
  exact ⟨h0, h9⟩

theorem lower_imp_alpha {f : Char} (ha : 'a' ≤ f) (hz : f ≤ 'z') :
    rustIsAlphabetic f = true := by
  simp only [rustIsAlphabetic, Bool.or_eq_true, Bool.and_eq_true, decide_eq_true_eq]
  left; left; left; left
  right
  exact ⟨ha, hz⟩

theorem numeric_imp_not_ws {c : Char} (h : rustIsNumeric c = true) :
    rustIsWhitespace c = false := by
  simp only [rustIsNumeric, Bool.or_eq_true, Bool.and_eq_true, decide_eq_true_eq] at h
  simp only [rustIsWhitespace, Bool.or_eq_true, Bool.and_eq_true, decide_eq_true_eq,
    Bool.not_eq_true] at *
  simp only [Bool.or_eq_false_iff, Bool.and_eq_false_iff, decide_eq_false_iff_not, not_and,
    not_le]
  omega

theorem alpha_imp_not_ws {c : Char} (h : rustIsAlphabetic c = true) :
    rustIsWhitespace c = false := by
  simp only [rustIsAlphabetic, Bool.or_eq_true, Bool.and_eq_true, decide_eq_true_eq] at h
  simp only [rustIsWhitespace, Bool.or_eq_true, Bool.and_eq_true, decide_eq_true_eq,
    Bool.not_eq_true] at *
  simp only [Bool.or_eq_false_iff, Bool.and_eq_false_iff, decide_eq_false_iff_not, not_and,
    not_le]
  omega

theorem filter_not_ws_skip_whitespace (l : List Char) :
    (skip_whitespace l).filter (fun c => !rustIsWhitespace c) =
      l.filter (fun c => !rustIsWhitespace c) := by
  induction l with
  | nil => rfl
  | cons a l ih =>
    simp only [skip_whitespace]
    by_cases h : rustIsWhitespace a
    · rw [if_pos h]
      rw [ih]
      simp [List.filter_cons, h]
    · rw [if_neg h]

theorem scan_skip_nil {input : List Char} (h : skip_whitespace input = []) :
    scan input = Except.ok [] := by
  rw [scan.eq_def]
  split
  · rfl
  · rename_i f r heq
    rw [h] at heq
    simp at heq

theorem scan_skip_cons {input : List Char} {f : Char} {r : List Char}
    (h : skip_whitespace input = f :: r) :
    scan input =
      if '0' ≤ f ∧ f ≤ '9' then scan_int (f :: r)
      else if ('a' ≤ f ∧ f ≤ 'z') ∨ ('A' ≤ f ∧ f ≤ 'Z') then scan_id (f :: r)
      else if f = '+' then (scan r).map (fun ts => ⟨"+", Category.Plus⟩ :: ts)
      else if f = '-' then (scan r).map (fun ts => ⟨"-", Category.Minus⟩ :: ts)
      else if f = '*' then (scan r).map (fun ts => ⟨"*", Category.Star⟩ :: ts)
      else if f = '/' then (scan r).map (fun ts => ⟨"/", Category.Slash⟩ :: ts)
      else if f = '(' then (scan r).map (fun ts => ⟨"(", Category.PuncLeftParen⟩ :: ts)
      else if f = ')' then (scan r).map (fun ts => ⟨")", Category.PuncRightParen⟩ :: ts)
      else if f = '\x7b' then (scan r).map (fun ts => ⟨"\x7b", Category.PuncLeftBrace⟩ :: ts)
      else if f = '\x7d' then (scan r).map (fun ts => ⟨"\x7d", Category.PuncRightBrace⟩ :: ts)
      else if f = ';' then (scan r).map (fun ts => ⟨";", Category.PuncSemiColon⟩ :: ts)
      else (scan r).map (fun ts => ⟨"PANIC?", Category.Plus⟩ :: ts) := by
  rw [scan.eq_def]
  split
  · rename_i heq
    rw [h] at heq
    simp at heq
  · rename_i f2 r2 heq
    rw [h] at heq
    injection heq with h1 h2
    subst h1
    subst h2
    rfl

theorem scan_int_skip_nil {input : List Char} (h : skip_whitespace input = []) :
    scan_int input = Except.ok [] := by
  rw [scan_int.eq_def]
  split
  · rfl
  · rename_i f r heq
    rw [h] at heq
    simp at heq

theorem scan_int_skip_cons {input : List Char} {f : Char} {r : List Char}
    (h : skip_whitespace input = f :: r) :
    scan_int input =
      if '0' ≤ f ∧ f ≤ '9' then
        (scan ((f :: r).dropWhile rustIsNumeric)).map
          (fun ts => ⟨String.mk ((f :: r).takeWhile rustIsNumeric), Category.LiteralInt⟩ :: ts)
      else Except.error Panic.scanIntTodo := by
  rw [scan_int.eq_def]
  split
  · rename_i heq
    rw [h] at heq
    simp at heq
  · rename_i f2 r2 heq
    rw [h] at heq
    injection heq with h1 h2
    subst h1
    subst h2
    rfl

theorem scan_id_skip_nil {input : List Char} (h : skip_whitespace input = []) :
    scan_id input = Except.ok [] := by
  rw [scan_id.eq_def]
  split
  · rfl
  · rename_i f r heq
    rw [h] at heq
    simp at heq

theorem scan_id_skip_cons {input : List Char} {f : Char} {r : List Char}
    (h : skip_whitespace input = f :: r) :
    scan_id input =
      if 'a' ≤ f ∧ f ≤ 'z' then
        (scan ((f :: r).dropWhile rustIsAlphabetic)).map
          (fun ts => resolve_id (String.mk ((f :: r).takeWhile rustIsAlphabetic)) :: ts)
      else Except.error Panic.scanIdTodo := by
  rw [scan_id.eq_def]
  split
  · rename_i heq
    rw [h] at heq
    simp at heq
  · rename_i f2 r2 heq
    rw [h] at heq
    injection heq with h1 h2
    subst h1
    subst h2
    rfl

set_option maxHeartbeats 2000000 in
theorem scanFuel_spec (fuel : Nat) : ∀ input : List Char,
    (2 * input.length + 2 ≤ fuel → scanFuel fuel Mode.dispatch input = some (scan input)) ∧
    (2 * input.length + 1 ≤ fuel →
      scanFuel fuel Mode.lit input = some (scan_int input) ∧
      scanFuel fuel Mode.ident input = some (scan_id input)) := by
  induction fuel with
  | zero =>
    intro input
    constructor
    · intro h; omega
    · intro h; omega
  | succ k ih =>
    intro input
    constructor
    · intro hf
      simp only [scanFuel]
      split
      · rename_i heq
        rw [scan_skip_nil heq]
      · rename_i f r heq
        have hlen : r.length + 1 ≤ input.length := by
          have := skip_whitespace_length_le input
          rw [heq] at this
          simpa using this
        rw [scan_skip_cons heq]
        have hb : 2 * r.length + 2 ≤ k := by omega
        have hc : 2 * (f :: r).length + 1 ≤ k := by simp only [List.length_cons]; omega
        by_cases h0 : '0' ≤ f ∧ f ≤ '9'
        · rw [if_pos h0, if_pos h0]
          exact ((ih (f :: r)).2 hc).1
        rw [if_neg h0, if_neg h0]
        by_cases ha : ('a' ≤ f ∧ f ≤ 'z') ∨ ('A' ≤ f ∧ f ≤ 'Z')
        · rw [if_pos ha, if_pos ha]
          exact ((ih (f :: r)).2 hc).2
        rw [if_neg ha, if_neg ha]
        by_cases hp : f = '+'
        · rw [if_pos hp, if_pos hp, (ih r).1 hb]; rfl
        rw [if_neg hp, if_neg hp]
        by_cases hp : f = '-'
        · rw [if_pos hp, if_pos hp, (ih r).1 hb]; rfl
        rw [if_neg hp, if_neg hp]
        by_cases hp : f = '*'
        · rw [if_pos hp, if_pos hp, (ih r).1 hb]; rfl
        rw [if_neg hp, if_neg hp]
        by_cases hp : f = '/'
        · rw [if_pos hp, if_pos hp, (ih r).1 hb]; rfl
        rw [if_neg hp, if_neg hp]
        by_cases hp : f = '('
        · rw [if_pos hp, if_pos hp, (ih r).1 hb]; rfl
        rw [if_neg hp, if_neg hp]
        by_cases hp : f = ')'
        · rw [if_pos hp, if_pos hp, (ih r).1 hb]; rfl
        rw [if_neg hp, if_neg hp]
        by_cases hp : f = '\x7b'
        · rw [if_pos hp, if_pos hp, (ih r).1 hb]; rfl
        rw [if_neg hp, if_neg hp]
        by_cases hp : f = '\x7d'
        · rw [if_pos hp, if_pos hp, (ih r).1 hb]; rfl
        rw [if_neg hp, if_neg hp]
        by_cases hp : f = ';'
        · rw [if_pos hp, if_pos hp, (ih r).1 hb]; rfl
        rw [if_neg hp, if_neg hp]
        rw [(ih r).1 hb]; rfl
    · intro hf
      constructor
      · simp only [scanFuel]
        split
        · rename_i heq
          rw [scan_int_skip_nil heq]
        · rename_i f r heq
          have hlen : r.length + 1 ≤ input.length := by
            have := skip_whitespace_length_le input
            rw [heq] at this
            simpa using this
          rw [scan_int_skip_cons heq]
          by_cases h0 : '0' ≤ f ∧ f ≤ '9'
          · rw [if_pos h0, if_pos h0]
            have hdrop : (f :: r).dropWhile rustIsNumeric = r.dropWhile rustIsNumeric := by
              rw [List.dropWhile_cons, if_pos (digit_imp_numeric h0.1 h0.2)]
            have hdl : (r.dropWhile rustIsNumeric).length ≤ r.length :=
              (List.dropWhile_sublist rustIsNumeric).length_le
            rw [hdrop, (ih (r.dropWhile rustIsNumeric)).1 (by omega)]
            rfl
          · rw [if_neg h0, if_neg h0]
      · simp only [scanFuel]
        split
        · rename_i heq
          rw [scan_id_skip_nil heq]
        · rename_i f r heq
          have hlen : r.length + 1 ≤ input.length := by
            have := skip_whitespace_length_le input
            rw [heq] at this
            simpa using this
          rw [scan_id_skip_cons heq]
          by_cases h0 : 'a' ≤ f ∧ f ≤ 'z'
          · rw [if_pos h0, if_pos h0]
            have hdrop : (f :: r).dropWhile rustIsAlphabetic = r.dropWhile rustIsAlphabetic := by
              rw [List.dropWhile_cons, if_pos (lower_imp_alpha h0.1 h0.2)]
            have hdl : (r.dropWhile rustIsAlphabetic).length ≤ r.length :=
              (List.dropWhile_sublist rustIsAlphabetic).length_le
            rw [hdrop, (ih (r.dropWhile rustIsAlphabetic)).1 (by omega)]
            rfl
          · rw [if_neg h0, if_neg h0]

/-- Transfer lemma: a `scanFuel` evaluation with sufficient fuel computes
`scan`. -/
theorem scan_eq_of_scanFuel {input : List Char} {res : Except Panic (List Token)}
    (h : scanFuel (2 * input.length + 2) Mode.dispatch input = some res) : scan input = res := by
  have hs := (scanFuel_spec (2 * input.length + 2) input).1 (Nat.le_refl _)
  rw [h] at hs
  exact (Option.some.injEq _ _ ▸ hs).symm

/-- Transfer lemma: a `scanFuel` evaluation with sufficient fuel computes
`scan_int`. -/
theorem scan_int_eq_of_scanFuel {input : List Char} {res : Except Panic (List Token)}
    (h : scanFuel (2 * input.length + 1) Mode.lit input = some res) : scan_int input = res := by
  have hs := ((scanFuel_spec (2 * input.length + 1) input).2 (Nat.le_refl _)).1
  rw [h] at hs
  exact (Option.some.injEq _ _ ▸ hs).symm

/-- Transfer lemma: a `scanFuel` evaluation with sufficient fuel computes
`scan_id`. -/
theorem scan_id_eq_of_scanFuel {input : List Char} {res : Except Panic (List Token)}
    (h : scanFuel (2 * input.length + 1) Mode.ident input = some res) : scan_id input = res := by
  have hs := ((scanFuel_spec (2 * input.length + 1) input).2 (Nat.le_refl _)).2
  rw [h] at hs
  exact (Option.some.injEq _ _ ▸ hs).symm

theorem char_le_iff {a b : Char} : a ≤ b ↔ a.toNat ≤ b.toNat := Iff.rfl

theorem resolve_id_lexeme (s : String) : (resolve_id s).lexeme = s := by
  simp only [resolve_id, keyword_of]
  split_ifs with h1 h2 h3
  · simp [h1]
  · simp [h2]
  · simp [h3]
  · simp

theorem resolve_id_identifier {s : String} (h : (resolve_id s).category = Category.Identifier) :
    s ≠ "int" ∧ s ≠ "main" ∧ s ≠ "return" := by
  simp only [resolve_id, keyword_of] at h
  split_ifs at h with h1 h2 h3
  exact ⟨h1, h2, h3⟩

theorem skip_whitespace_append {w s : List Char} (hw : ∀ c ∈ w, rustIsWhitespace c = true) :
    skip_whitespace (w ++ s) = skip_whitespace s := by
  induction w with
  | nil => rfl
  | cons a w ih =>
    simp only [List.cons_append, skip_whitespace]
    rw [if_pos (hw a (List.mem_cons_self a w))]
    exact ih fun c hc => hw c (List.mem_cons_of_mem a hc)

/-! ### Claim C1 -/

/-- C1 (code_bug): the claim — and spec §7 — demand that an input whose
first non-whitespace character begins no lexeme (such as `@` or `#`) fail
with an `UnrecognizedCharacter` error and produce no token.  The code has no
error channel at all: its catch-all arm fabricates the placeholder token
`{ lexeme: "PANIC?", category: Plus }` and keeps scanning.  This theorem
evaluates the scanner at the two characters named by the spec. -/
theorem claim1_unrecognized_char_yields_placeholder_token :
    scan ['@'] = Except.ok [⟨"PANIC?", Category.Plus⟩] ∧
    scan ['#'] = Except.ok [⟨"PANIC?", Category.Plus⟩] :=
  ⟨scan_eq_of_scanFuel rfl, scan_eq_of_scanFuel rfl⟩

/-! ### Claim C2 -/

/-- C2 (code_bug): the claim says every input whose first non-whitespace
character is an ASCII letter — uppercase or lowercase — gets a token and
never panics.  `scan` indeed dispatches `'A'..='Z'` to `scan_id`, but
`scan_id`'s own match only accepts `'a'..='z'` and falls into `todo!()`
(a panic) otherwise, contradicting the dispatcher and the code's own
`Identifier` comment (`RE: [a-zA-Z][a-zA-Z0-9]*`).  Scanning `"A"` panics
while scanning `"a"` returns an Identifier token. -/
theorem claim2_uppercase_letter_panics :
    scan ['A'] = Except.error Panic.scanIdTodo ∧
    scan ['a'] = Except.ok [⟨"a", Category.Identifier⟩] :=
  ⟨scan_eq_of_scanFuel rfl, scan_eq_of_scanFuel rfl⟩

/-! ### Claim C7 -/

/-- C7 (corrected), counterexample: the claim says `skip_whitespace` removes
exactly the leading space, tab, newline and carriage return characters and
nothing else.  The code uses `char::is_whitespace`, which also removes the
ASCII form feed U+000C (and vertical tab, NEL, NBSP): on the input
`"\x0Cx"` the code drops the form feed while the claimed contract keeps it. -/
theorem claim7_counterexample_form_feed :
    skip_whitespace [Char.ofNat 12, 'x'] = ['x'] ∧
    skip_whitespace_spec [Char.ofNat 12, 'x'] = [Char.ofNat 12, 'x'] ∧
    skip_whitespace [Char.ofNat 12, 'x'] ≠ skip_whitespace_spec [Char.ofNat 12, 'x'] :=
  ⟨rfl, rfl, by decide⟩

/-- C7 (corrected), amended claim: `skip_whitespace` is total and pure,
maps empty input to empty output, and removes exactly the leading
characters satisfying `char::is_whitespace` — space, tab, newline, carriage
return, and also vertical tab, form feed, NEL and NBSP — leaving the rest
of the input unchanged (it equals `dropWhile is_whitespace`). -/
theorem claim7_skip_whitespace_exact :
    skip_whitespace [] = [] ∧
    ∀ input : List Char, skip_whitespace input = input.dropWhile rustIsWhitespace :=
  ⟨rfl, skip_whitespace_eq_dropWhile⟩

/-! ### Claim C8 -/

/-- C8 (confirmed): prepending any whitespace-only string to an input does
not change the token sequence: `scan (w ++ s) = scan s` whenever every
character of `w` is whitespace. -/
theorem claim8_leading_whitespace_invariance :
    ∀ w s : List Char, (∀ c ∈ w, rustIsWhitespace c = true) → scan (w ++ s) = scan s := by
  intro w s hw
  have hskip : skip_whitespace (w ++ s) = skip_whitespace s := skip_whitespace_append hw
  cases hs : skip_whitespace s with
  | nil => rw [scan_skip_nil (hskip.trans hs), scan_skip_nil hs]
  | cons f r => rw [scan_skip_cons (hskip.trans hs), scan_skip_cons hs]

/-- C8 witness: instantiation at `w = " "`, `s = "1"`. -/
theorem claim8_witness : scan ([' '] ++ ['1']) = scan ['1'] :=
  claim8_leading_whitespace_invariance [' '] ['1'] (by decide)

/-! ### Claim C3 -/

/-- C3 (corrected), counterexample: the claim says the literal scanner
consumes exactly the maximal run of consecutive decimal digits.  The code
takes the run with `char::is_numeric`, which is wider than the decimal
digits even on byte-as-character input: on `['1', U+00B2]` (byte 0xB2,
superscript two, a Unicode numeric but not a decimal digit) `scan_int`
consumes both characters into one LiteralInt lexeme, although the maximal
decimal-digit run is just `"1"`. -/
theorem claim3_counterexample_superscript_two :
    rustIsNumeric (Char.ofNat 0xB2) = true ∧
    (Char.ofNat 0xB2).isDigit = false ∧
    ['1', Char.ofNat 0xB2].takeWhile Char.isDigit = ['1'] ∧
    scan_int ['1', Char.ofNat 0xB2] =
      Except.ok [⟨String.mk ['1', Char.ofNat 0xB2], Category.LiteralInt⟩] ∧
    String.mk ['1', Char.ofNat 0xB2] ≠ String.mk ['1'] :=
  ⟨rfl, rfl, rfl, scan_int_eq_of_scanFuel rfl, by decide⟩

/-- C3 (corrected), amended claim: for every input beginning with a decimal
digit, `scan_int` consumes exactly the maximal run of consecutive *numeric*
characters (`char::is_numeric`) as one LiteralInt token and never splits
the run; on ASCII characters `is_numeric` coincides with the decimal
digits, so in particular `"123"` yields the single LiteralInt `"123"`,
never `"12"` then `"3"`. -/
theorem claim3_literal_scanner_maximal_numeric_run :
    (∀ (f : Char) (r : List Char), '0' ≤ f → f ≤ '9' →
      scan_int (f :: r) =
        (scan ((f :: r).dropWhile rustIsNumeric)).map
          (fun ts =>
            ⟨String.mk ((f :: r).takeWhile rustIsNumeric), Category.LiteralInt⟩ :: ts)) ∧
    (∀ c : Char, c.toNat ≤ 127 → (rustIsNumeric c = true ↔ ('0' ≤ c ∧ c ≤ '9'))) ∧
    scan ['1', '2', '3'] = Except.ok [⟨"123", Category.LiteralInt⟩] := by
  refine ⟨?_, ?_, scan_eq_of_scanFuel rfl⟩
  · intro f r h0 h9
    have hws := numeric_imp_not_ws (digit_imp_numeric h0 h9)
    rw [scan_int_skip_cons (skip_whitespace_cons_of_neg hws), if_pos ⟨h0, h9⟩]
  · intro c hc
    have e0 : ('0' : Char).toNat = 48 := rfl
    have e9 : ('9' : Char).toNat = 57 := rfl
    rw [char_le_iff, char_le_iff, e0, e9]
    simp only [rustIsNumeric, Bool.or_eq_true, Bool.and_eq_true, decide_eq_true_eq]
    omega

/-- C3 witness: the amended characterisation applied at the input `"123"`. -/
theorem claim3_witness :
    scan_int ('1' :: ['2', '3']) =
      (scan (('1' :: ['2', '3']).dropWhile rustIsNumeric)).map
        (fun ts =>
          ⟨String.mk (('1' :: ['2', '3']).takeWhile rustIsNumeric), Category.LiteralInt⟩ :: ts) :=
  claim3_literal_scanner_maximal_numeric_run.1 '1' ['2', '3'] (by decide) (by decide)

/-! ### Inversion helpers for the fuel-indexed evaluator -/

theorem scanFuel_map_ok {X : Option (Except Panic (List Token))}
    {g : List Token → List Token} {ts : List Token}
    (h : X.map (Except.map g) = some (Except.ok ts)) :
    ∃ ts2, X = some (Except.ok ts2) ∧ ts = g ts2 := by
  cases X with
  | none => simp at h
  | some res =>
    cases res with
    | error e => simp [Except.map] at h
    | ok l =>
      simp only [Option.map_some', Except.map, Option.some.injEq, Except.ok.injEq] at h
      exact ⟨l, rfl, h.symm⟩

theorem scanFuel_map_error {X : Option (Except Panic (List Token))}
    {g : List Token → List Token} {e : Panic}
    (h : X.map (Except.map g) = some (Except.error e)) :
    X = some (Except.error e) := by
  cases X with
  | none => simp at h
  | some res =>
    cases res with
    | error e2 =>
      simp only [Option.map_some', Except.map, Option.some.injEq, Except.error.injEq] at h
      rw [h]
    | ok l => simp [Except.map] at h

/-! ### Claim C4 -/

/-- C4 (confirmed): for a maximal letter-run lexeme the scanner resolves
keywords by exact, case-sensitive match against the closed table
`"int"→KeywordTypeInt`, `"main"→KeywordMain`, `"return"→KeywordReturn`,
emitting the keyword token on a hit and an Identifier token with that
lexeme otherwise; in particular `"intx"` yields the single Identifier token
`"intx"`, not KeywordTypeInt followed by Identifier `"x"`. -/
theorem claim4_keyword_resolution :
    (∀ (f : Char) (r : List Char), 'a' ≤ f → f ≤ 'z' →
      scan_id (f :: r) =
        (scan ((f :: r).dropWhile rustIsAlphabetic)).map
          (fun ts =>
            resolve_id (String.mk ((f :: r).takeWhile rustIsAlphabetic)) :: ts)) ∧
    (∀ s : String,
      resolve_id s =
        if s = "int" then ⟨"int", Category.KeywordTypeInt⟩
        else if s = "main" then ⟨"main", Category.KeywordMain⟩
        else if s = "return" then ⟨"return", Category.KeywordReturn⟩
        else ⟨s, Category.Identifier⟩) ∧
    scan ['i', 'n', 't', 'x'] = Except.ok [⟨"intx", Category.Identifier⟩] := by
  refine ⟨?_, ?_, scan_eq_of_scanFuel rfl⟩
  · intro f r ha hz
    have hws := alpha_imp_not_ws (lower_imp_alpha ha hz)
    rw [scan_id_skip_cons (skip_whitespace_cons_of_neg hws), if_pos ⟨ha, hz⟩]
  · intro s
    simp only [resolve_id, keyword_of]
    split_ifs <;> rfl

/-- C4 witness: the letter-run characterisation applied at the input
`"intx"`. -/
theorem claim4_witness :
    scan_id ('i' :: ['n', 't', 'x']) =
      (scan (('i' :: ['n', 't', 'x']).dropWhile rustIsAlphabetic)).map
        (fun ts =>
          resolve_id (String.mk (('i' :: ['n', 't', 'x']).takeWhile rustIsAlphabetic)) :: ts) :=
  claim4_keyword_resolution.1 'i' ['n', 't', 'x'] (by decide) (by decide)

theorem recognized_iff {c : Char} :
    recognized c = true ↔
      ('0' ≤ c ∧ c ≤ '9') ∨ ('a' ≤ c ∧ c ≤ 'z') ∨ ('A' ≤ c ∧ c ≤ 'Z') ∨
        c = '+' ∨ c = '-' ∨ c = '*' ∨ c = '/' ∨ c = '(' ∨ c = ')' ∨
        c = '\x7b' ∨ c = '\x7d' ∨ c = ';' := by
  simp only [recognized, Bool.or_eq_true, Bool.and_eq_true, decide_eq_true_eq]
  tauto

theorem recognizedLower_iff {c : Char} :
    recognizedLower c = true ↔
      ('0' ≤ c ∧ c ≤ '9') ∨ ('a' ≤ c ∧ c ≤ 'z') ∨
        c = '+' ∨ c = '-' ∨ c = '*' ∨ c = '/' ∨ c = '(' ∨ c = ')' ∨
        c = '\x7b' ∨ c = '\x7d' ∨ c = ';' := by
  simp only [recognizedLower, Bool.or_eq_true, Bool.and_eq_true, decide_eq_true_eq]
  tauto

theorem scanFuel_nil {k : Nat} {m : Mode} {input : List Char}
    (heq : skip_whitespace input = []) : scanFuel (k + 1) m input = some (Except.ok []) := by
  simp only [scanFuel, heq]

theorem scanFuel_dispatch_cases {k : Nat} {input : List Char} {f : Char} {r : List Char}
    (heq : skip_whitespace input = f :: r) :
    (('0' ≤ f ∧ f ≤ '9') ∧
      scanFuel (k + 1) Mode.dispatch input = scanFuel k Mode.lit (f :: r)) ∨
    (¬('0' ≤ f ∧ f ≤ '9') ∧ (('a' ≤ f ∧ f ≤ 'z') ∨ ('A' ≤ f ∧ f ≤ 'Z')) ∧
      scanFuel (k + 1) Mode.dispatch input = scanFuel k Mode.ident (f :: r)) ∨
    ((f = '+' ∨ f = '-' ∨ f = '*' ∨ f = '/' ∨ f = '(' ∨ f = ')' ∨
        f = '\x7b' ∨ f = '\x7d' ∨ f = ';') ∧
      ∃ t0 : Token, t0.lexeme.data = [f] ∧ t0.category ≠ Category.Identifier ∧
        scanFuel (k + 1) Mode.dispatch input =
          (scanFuel k Mode.dispatch r).map (Except.map (fun ts => t0 :: ts))) ∨
    (recognized f = false ∧
      scanFuel (k + 1) Mode.dispatch input =
        (scanFuel k Mode.dispatch r).map
          (Except.map (fun ts => (⟨"PANIC?", Category.Plus⟩ : Token) :: ts))) := by
  simp only [scanFuel, heq]
  by_cases h0 : '0' ≤ f ∧ f ≤ '9'
  · exact Or.inl ⟨h0, by rw [if_pos h0]⟩
  rw [if_neg h0]
  by_cases ha : ('a' ≤ f ∧ f ≤ 'z') ∨ ('A' ≤ f ∧ f ≤ 'Z')
  · exact Or.inr (Or.inl ⟨h0, ha, by rw [if_pos ha]⟩)
  rw [if_neg ha]
  by_cases hp : f = '+'
  · subst hp
    exact Or.inr (Or.inr (Or.inl ⟨by tauto, ⟨"+", Category.Plus⟩, rfl, by decide, by rw [if_pos rfl]⟩))
  rw [if_neg hp]
  by_cases hp2 : f = '-'
  · subst hp2
    exact Or.inr (Or.inr (Or.inl ⟨by tauto, ⟨"-", Category.Minus⟩, rfl, by decide, by rw [if_pos rfl]⟩))
  rw [if_neg hp2]
  by_cases hp3 : f = '*'
  · subst hp3
    exact Or.inr (Or.inr (Or.inl ⟨by tauto, ⟨"*", Category.Star⟩, rfl, by decide, by rw [if_pos rfl]⟩))
  rw [if_neg hp3]
  by_cases hp4 : f = '/'
  · subst hp4
    exact Or.inr (Or.inr (Or.inl ⟨by tauto, ⟨"/", Category.Slash⟩, rfl, by decide, by rw [if_pos rfl]⟩))
  rw [if_neg hp4]
  by_cases hp5 : f = '('
  · subst hp5
    exact Or.inr (Or.inr (Or.inl
      ⟨by tauto, ⟨"(", Category.PuncLeftParen⟩, rfl, by decide, by rw [if_pos rfl]⟩))
  rw [if_neg hp5]
  by_cases hp6 : f = ')'
  · subst hp6
    exact Or.inr (Or.inr (Or.inl
      ⟨by tauto, ⟨")", Category.PuncRightParen⟩, rfl, by decide, by rw [if_pos rfl]⟩))
  rw [if_neg hp6]
  by_cases hp7 : f = '\x7b'
  · subst hp7
    exact Or.inr (Or.inr (Or.inl
      ⟨by tauto, ⟨"\x7b", Category.PuncLeftBrace⟩, rfl, by decide, by rw [if_pos rfl]⟩))
  rw [if_neg hp7]
  by_cases hp8 : f = '\x7d'
  · subst hp8
    exact Or.inr (Or.inr (Or.inl
      ⟨by tauto, ⟨"\x7d", Category.PuncRightBrace⟩, rfl, by decide, by rw [if_pos rfl]⟩))
  rw [if_neg hp8]
  by_cases hp9 : f = ';'
  · subst hp9
    exact Or.inr (Or.inr (Or.inl
      ⟨by tauto, ⟨";", Category.PuncSemiColon⟩, rfl, by decide, by rw [if_pos rfl]⟩))
  rw [if_neg hp9]
  refine Or.inr (Or.inr (Or.inr ⟨?_, rfl⟩))
  rw [← Bool.not_eq_true, recognized_iff]
  tauto

theorem scanFuel_lit_cases {k : Nat} {input : List Char} {f : Char} {r : List Char}
    (heq : skip_whitespace input = f :: r) :
    (('0' ≤ f ∧ f ≤ '9') ∧
      scanFuel (k + 1) Mode.lit input =
        (scanFuel k Mode.dispatch ((f :: r).dropWhile rustIsNumeric)).map
          (Except.map
            (fun ts =>
              (⟨String.mk ((f :: r).takeWhile rustIsNumeric), Category.LiteralInt⟩ : Token)
                :: ts))) ∨
    (¬('0' ≤ f ∧ f ≤ '9') ∧
      scanFuel (k + 1) Mode.lit input = some (Except.error Panic.scanIntTodo)) := by
  simp only [scanFuel, heq]
  by_cases h0 : '0' ≤ f ∧ f ≤ '9'
  · exact Or.inl ⟨h0, by rw [if_pos h0]⟩
  · exact Or.inr ⟨h0, by rw [if_neg h0]⟩

theorem scanFuel_ident_cases {k : Nat} {input : List Char} {f : Char} {r : List Char}
    (heq : skip_whitespace input = f :: r) :
    (('a' ≤ f ∧ f ≤ 'z') ∧
      scanFuel (k + 1) Mode.ident input =
        (scanFuel k Mode.dispatch ((f :: r).dropWhile rustIsAlphabetic)).map
          (Except.map
            (fun ts =>
              resolve_id (String.mk ((f :: r).takeWhile rustIsAlphabetic)) :: ts))) ∨
    (¬('a' ≤ f ∧ f ≤ 'z') ∧
      scanFuel (k + 1) Mode.ident input = some (Except.error Panic.scanIdTodo)) := by
  simp only [scanFuel, heq]
  by_cases h0 : 'a' ≤ f ∧ f ≤ 'z'
  · exact Or.inl ⟨h0, by rw [if_pos h0]⟩
  · exact Or.inr ⟨h0, by rw [if_neg h0]⟩

/-! ### Claim C5 -/

theorem scanFuel_identifier_inv : ∀ (fuel : Nat) (m : Mode) (input : List Char)
    (ts : List Token), scanFuel fuel m input = some (Except.ok ts) →
    ∀ t ∈ ts, t.category = Category.Identifier →
      t.lexeme ≠ "int" ∧ t.lexeme ≠ "main" ∧ t.lexeme ≠ "return" := by
  intro fuel
  induction fuel with
  | zero =>
    intro m input ts h
    simp [scanFuel] at h
  | succ k ih =>
    intro m input ts h t ht hcat
    cases hsw : skip_whitespace input with
    | nil =>
      rw [scanFuel_nil hsw, Option.some.injEq, Except.ok.injEq] at h
      subst h
      exact absurd ht (List.not_mem_nil t)
    | cons f r =>
      cases m with
      | dispatch =>
        rcases @scanFuel_dispatch_cases k input f r hsw with
          ⟨h0, he⟩ | ⟨hn0, ha, he⟩ | ⟨hsngl, t0, hlex, hcat0, he⟩ | ⟨hrec, he⟩
        · rw [he] at h
          exact ih Mode.lit (f :: r) ts h t ht hcat
        · rw [he] at h
          exact ih Mode.ident (f :: r) ts h t ht hcat
        · rw [he] at h
          obtain ⟨ts2, hX, rfl⟩ := scanFuel_map_ok h
          rcases List.mem_cons.mp ht with rfl | ht2
          · exact absurd hcat hcat0
          · exact ih Mode.dispatch r ts2 hX t ht2 hcat
        · rw [he] at h
          obtain ⟨ts2, hX, rfl⟩ := scanFuel_map_ok h
          rcases List.mem_cons.mp ht with rfl | ht2
          · simp at hcat
          · exact ih Mode.dispatch r ts2 hX t ht2 hcat
      | lit =>
        rcases @scanFuel_lit_cases k input f r hsw with ⟨h0, he⟩ | ⟨h0, he⟩
        · rw [he] at h
          obtain ⟨ts2, hX, rfl⟩ := scanFuel_map_ok h
          rcases List.mem_cons.mp ht with rfl | ht2
          · simp at hcat
          · exact ih Mode.dispatch _ ts2 hX t ht2 hcat
        · rw [he] at h
          simp at h
      | ident =>
        rcases @scanFuel_ident_cases k input f r hsw with ⟨h0, he⟩ | ⟨h0, he⟩
        · rw [he] at h
          obtain ⟨ts2, hX, rfl⟩ := scanFuel_map_ok h
          rcases List.mem_cons.mp ht with rfl | ht2
          · rw [resolve_id_lexeme]
            exact resolve_id_identifier hcat
          · exact ih Mode.dispatch _ ts2 hX t ht2 hcat
        · rw [he] at h
          simp at h

/-- C5 (confirmed): in every token sequence the scanner returns, a token
categorised Identifier never carries one of the reserved lexemes `"int"`,
`"main"`, `"return"` — keywords and identifiers are mutually exclusive by
construction of `scan_id`'s resolution step. -/
theorem claim5_identifier_never_reserved :
    ∀ (input : List Char) (ts : List Token), scan input = Except.ok ts →
      ∀ t ∈ ts, t.category = Category.Identifier →
        t.lexeme ≠ "int" ∧ t.lexeme ≠ "main" ∧ t.lexeme ≠ "return" := by
  intro input ts h
  have hs := (scanFuel_spec (2 * input.length + 2) input).1 (Nat.le_refl _)
  rw [h] at hs
  exact scanFuel_identifier_inv _ Mode.dispatch input ts hs

/-- C5 witness: the invariant applied to the Identifier token produced by
scanning `"x"`. -/
theorem claim5_witness :
    (Token.mk "x" Category.Identifier).lexeme ≠ "int" ∧
    (Token.mk "x" Category.Identifier).lexeme ≠ "main" ∧
    (Token.mk "x" Category.Identifier).lexeme ≠ "return" :=
  claim5_identifier_never_reserved ['x'] [⟨"x", Category.Identifier⟩]
    (scan_eq_of_scanFuel rfl) ⟨"x", Category.Identifier⟩ (List.mem_singleton.mpr rfl) rfl

/-! ### Claim C6 -/

theorem concatLexemes_nil : concatLexemes [] = [] := rfl

theorem concatLexemes_cons (t : Token) (ts : List Token) :
    concatLexemes (t :: ts) = t.lexeme.data ++ concatLexemes ts := rfl

theorem scanFuel_concat_inv : ∀ (fuel : Nat) (m : Mode) (input : List Char) (ts : List Token),
    (∀ c ∈ input, rustIsWhitespace c = false → recognized c = true) →
    scanFuel fuel m input = some (Except.ok ts) →
    concatLexemes ts = input.filter (fun c => !rustIsWhitespace c) := by
  intro fuel
  induction fuel with
  | zero =>
    intro m input ts hyp h
    simp [scanFuel] at h
  | succ k ih =>
    intro m input ts hyp h
    have hfilter : input.filter (fun c => !rustIsWhitespace c) =
        (skip_whitespace input).filter (fun c => !rustIsWhitespace c) :=
      (filter_not_ws_skip_whitespace input).symm
    cases hsw : skip_whitespace input with
    | nil =>
      rw [scanFuel_nil hsw, Option.some.injEq, Except.ok.injEq] at h
      subst h
      rw [hfilter, hsw]
      rfl
    | cons f r =>
      have hnwf : rustIsWhitespace f = false := skip_whitespace_head_not_ws hsw
      have hyp2 : ∀ c ∈ f :: r, rustIsWhitespace c = false → recognized c = true := by
        intro c hc
        exact hyp c (mem_skip_whitespace (by rw [hsw]; exact hc))
      rw [hfilter, hsw]
      cases m with
      | dispatch =>
        rcases @scanFuel_dispatch_cases k input f r hsw with
          ⟨h0, he⟩ | ⟨hn0, ha, he⟩ | ⟨hsngl, t0, hlex, hcat0, he⟩ | ⟨hrec, he⟩
        · rw [he] at h
          have := ih Mode.lit (f :: r) ts hyp2 h
          rw [this]
        · rw [he] at h
          have := ih Mode.ident (f :: r) ts hyp2 h
          rw [this]
        · rw [he] at h
          obtain ⟨ts2, hX, rfl⟩ := scanFuel_map_ok h
          have ih2 := ih Mode.dispatch r ts2
            (fun c hc => hyp2 c (List.mem_cons_of_mem f hc)) hX
          rw [concatLexemes_cons, hlex, ih2, List.filter_cons_of_pos (by simp [hnwf])]
          rfl
        · have := hyp2 f (List.mem_cons_self f r) hnwf
          rw [hrec] at this
          simp at this
      | lit =>
        rcases @scanFuel_lit_cases k input f r hsw with ⟨h0, he⟩ | ⟨h0, he⟩
        · rw [he] at h
          obtain ⟨ts2, hX, rfl⟩ := scanFuel_map_ok h
          have hsub : ∀ c ∈ (f :: r).dropWhile rustIsNumeric, c ∈ f :: r :=
            fun c hc => (List.dropWhile_sublist rustIsNumeric).subset hc
          have ih2 := ih Mode.dispatch ((f :: r).dropWhile rustIsNumeric) ts2
            (fun c hc => hyp2 c (hsub c hc)) hX
          rw [concatLexemes_cons, ih2]
          have htw : ((f :: r).takeWhile rustIsNumeric).filter (fun c => !rustIsWhitespace c) =
              (f :: r).takeWhile rustIsNumeric :=
            List.filter_eq_self.mpr
              (fun a ha => by simp [numeric_imp_not_ws (List.mem_takeWhile_imp ha)])
          conv_rhs => rw [← List.takeWhile_append_dropWhile rustIsNumeric (f :: r)]
          rw [List.filter_append, htw]
        · rw [he] at h
          simp at h
      | ident =>
        rcases @scanFuel_ident_cases k input f r hsw with ⟨h0, he⟩ | ⟨h0, he⟩
        · rw [he] at h
          obtain ⟨ts2, hX, rfl⟩ := scanFuel_map_ok h
          have hsub : ∀ c ∈ (f :: r).dropWhile rustIsAlphabetic, c ∈ f :: r :=
            fun c hc => (List.dropWhile_sublist rustIsAlphabetic).subset hc
          have ih2 := ih Mode.dispatch ((f :: r).dropWhile rustIsAlphabetic) ts2
            (fun c hc => hyp2 c (hsub c hc)) hX
          rw [concatLexemes_cons, resolve_id_lexeme, ih2]
          have htw : ((f :: r).takeWhile rustIsAlphabetic).filter (fun c => !rustIsWhitespace c) =
              (f :: r).takeWhile rustIsAlphabetic :=
            List.filter_eq_self.mpr
              (fun a ha => by simp [alpha_imp_not_ws (List.mem_takeWhile_imp ha)])
          conv_rhs => rw [← List.takeWhile_append_dropWhile rustIsAlphabetic (f :: r)]
          rw [List.filter_append, htw]
        · rw [he] at h
          simp at h

/-- C6 (corrected), counterexample: the claim says every non-whitespace
input character appears unchanged in exactly one token's lexeme.  On the
input `"#"` the scanner succeeds but returns the fabricated placeholder
token `"PANIC?"`: the concatenated lexemes spell `PANIC?`, not `#`. -/
theorem claim6_counterexample_placeholder_breaks_roundtrip :
    scan ['#'] = Except.ok [⟨"PANIC?", Category.Plus⟩] ∧
    concatLexemes [⟨"PANIC?", Category.Plus⟩] ≠
      ['#'].filter (fun c => !rustIsWhitespace c) :=
  ⟨scan_eq_of_scanFuel rfl, by decide⟩

/-- C6 (corrected), amended claim: for every input in which each
non-whitespace character begins a valid lexeme (digit, ASCII letter,
operator or punctuation — so the fabricating catch-all is never reached),
if `scan` returns a token sequence then concatenating its lexemes
reproduces exactly the non-whitespace content of the input, in source
order. -/
theorem claim6_lexeme_concat_roundtrip :
    ∀ (input : List Char) (ts : List Token),
      (∀ c ∈ input, rustIsWhitespace c = false → recognized c = true) →
      scan input = Except.ok ts →
      concatLexemes ts = input.filter (fun c => !rustIsWhitespace c) := by
  intro input ts hyp h
  have hs := (scanFuel_spec (2 * input.length + 2) input).1 (Nat.le_refl _)
  rw [h] at hs
  exact scanFuel_concat_inv _ Mode.dispatch input ts hyp hs

/-- C6 witness: the round-trip equation applied to scanning `"9 + 8"`. -/
theorem claim6_witness :
    concatLexemes [⟨"9", Category.LiteralInt⟩, ⟨"+", Category.Plus⟩,
        ⟨"8", Category.LiteralInt⟩] =
      ['9', ' ', '+', ' ', '8'].filter (fun c => !rustIsWhitespace c) :=
  claim6_lexeme_concat_roundtrip ['9', ' ', '+', ' ', '8']
    [⟨"9", Category.LiteralInt⟩, ⟨"+", Category.Plus⟩, ⟨"8", Category.LiteralInt⟩]
    (by decide) (scan_eq_of_scanFuel rfl)

/-! ### Claim C9 -/

theorem scanFuel_map_inv {X : Option (Except Panic (List Token))}
    {g : List Token → List Token} {res : Except Panic (List Token)}
    (h : X.map (Except.map g) = some res) :
    ∃ res0, X = some res0 ∧ res = Except.map g res0 := by
  cases X with
  | none => simp at h
  | some res0 =>
    rw [Option.map_some', Option.some.injEq] at h
    exact ⟨res0, rfl, h.symm⟩

theorem recognizedLower_imp_recognized {c : Char} (h : recognizedLower c = true) :
    recognized c = true := by
  rw [recognized_iff]
  rw [recognizedLower_iff] at h
  tauto

theorem scanFuel_total_inv : ∀ (fuel : Nat) (input : List Char),
    ((∀ c ∈ input, rustIsWhitespace c = false → recognizedLower c = true) →
      ∀ res, scanFuel fuel Mode.dispatch input = some res → ∃ ts, res = Except.ok ts) ∧
    ((∀ c ∈ input, rustIsWhitespace c = false → recognizedLower c = true) →
      (∀ f r, skip_whitespace input = f :: r → '0' ≤ f ∧ f ≤ '9') →
      ∀ res, scanFuel fuel Mode.lit input = some res → ∃ ts, res = Except.ok ts) ∧
    ((∀ c ∈ input, rustIsWhitespace c = false → recognizedLower c = true) →
      (∀ f r, skip_whitespace input = f :: r → 'a' ≤ f ∧ f ≤ 'z') →
      ∀ res, scanFuel fuel Mode.ident input = some res → ∃ ts, res = Except.ok ts) := by
  intro fuel
  induction fuel with
  | zero =>
    intro input
    refine ⟨?_, ?_, ?_⟩
    · intro _ res h
      simp [scanFuel] at h
    · intro _ _ res h
      simp [scanFuel] at h
    · intro _ _ res h
      simp [scanFuel] at h
  | succ k ih =>
    intro input
    refine ⟨?_, ?_, ?_⟩
    · intro hyp res h
      cases hsw : skip_whitespace input with
      | nil =>
        rw [scanFuel_nil hsw, Option.some.injEq] at h
        exact ⟨[], h.symm⟩
      | cons f r =>
        have hnwf : rustIsWhitespace f = false := skip_whitespace_head_not_ws hsw
        have hyp2 : ∀ c ∈ f :: r, rustIsWhitespace c = false → recognizedLower c = true := by
          intro c hc
          exact hyp c (mem_skip_whitespace (by rw [hsw]; exact hc))
        have hrecl : recognizedLower f = true := hyp2 f (List.mem_cons_self f r) hnwf
        have hskip2 : skip_whitespace (f :: r) = f :: r := skip_whitespace_cons_of_neg hnwf
        rcases @scanFuel_dispatch_cases k input f r hsw with
          ⟨h0, he⟩ | ⟨hn0, ha, he⟩ | ⟨hsngl, t0, hlex, hcat0, he⟩ | ⟨hrec, he⟩
        · rw [he] at h
          refine (ih (f :: r)).2.1 hyp2 ?_ res h
          intro f2 r2 heq2
          rw [hskip2] at heq2
          injection heq2 with e1 e2
          rw [← e1]
          exact h0
        · rw [he] at h
          refine (ih (f :: r)).2.2 hyp2 ?_ res h
          intro f2 r2 heq2
          rw [hskip2] at heq2
          injection heq2 with e1 e2
          rw [← e1]
          have hlow : 'a' ≤ f ∧ f ≤ 'z' := by
            rcases recognizedLower_iff.mp hrecl with hd | hl | hs1 | hs1 | hs1 | hs1 | hs1 |
              hs1 | hs1 | hs1 | hs1
            · exact absurd hd hn0
            · exact hl
            all_goals
              subst hs1
            all_goals
              exact absurd ha (by decide)
          exact hlow
        · rw [he] at h
          obtain ⟨res0, hX, rfl⟩ := scanFuel_map_inv h
          obtain ⟨ts0, rfl⟩ := (ih r).1
            (fun c hc => hyp2 c (List.mem_cons_of_mem f hc)) res0 hX
          exact ⟨t0 :: ts0, rfl⟩
        · rw [recognizedLower_imp_recognized hrecl] at hrec
          simp at hrec
    · intro hyp hhead res h
      cases hsw : skip_whitespace input with
      | nil =>
        rw [scanFuel_nil hsw, Option.some.injEq] at h
        exact ⟨[], h.symm⟩
      | cons f r =>
        rcases @scanFuel_lit_cases k input f r hsw with ⟨h0, he⟩ | ⟨h0, he⟩
        · rw [he] at h
          obtain ⟨res0, hX, rfl⟩ := scanFuel_map_inv h
          have hyp2 : ∀ c ∈ (f :: r).dropWhile rustIsNumeric,
              rustIsWhitespace c = false → recognizedLower c = true := by
            intro c hc
            exact hyp c (mem_skip_whitespace
              (by rw [hsw]; exact (List.dropWhile_sublist rustIsNumeric).subset hc))
          obtain ⟨ts0, rfl⟩ := (ih ((f :: r).dropWhile rustIsNumeric)).1 hyp2 res0 hX
          exact ⟨_, rfl⟩
        · exact absurd (hhead f r hsw) h0
    · intro hyp hhead res h
      cases hsw : skip_whitespace input with
      | nil =>
        rw [scanFuel_nil hsw, Option.some.injEq] at h
        exact ⟨[], h.symm⟩
      | cons f r =>
        rcases @scanFuel_ident_cases k input f r hsw with ⟨h0, he⟩ | ⟨h0, he⟩
        · rw [he] at h
          obtain ⟨res0, hX, rfl⟩ := scanFuel_map_inv h
          have hyp2 : ∀ c ∈ (f :: r).dropWhile rustIsAlphabetic,
              rustIsWhitespace c = false → recognizedLower c = true := by
            intro c hc
            exact hyp c (mem_skip_whitespace
              (by rw [hsw]; exact (List.dropWhile_sublist rustIsAlphabetic).subset hc))
          obtain ⟨ts0, rfl⟩ := (ih ((f :: r).dropWhile rustIsAlphabetic)).1 hyp2 res0 hX
          exact ⟨_, rfl⟩
        · exact absurd (hhead f r hsw) h0

/-- C9 (corrected), counterexample: the claim promises a token sequence for
every well-formed input (each non-whitespace character begins a valid
lexeme).  `"B"` is well formed under the spec's grammar — an uppercase
ASCII letter begins an identifier — yet scanning it hits `scan_id`'s
`todo!()` and panics instead of returning a token sequence. -/
theorem claim9_counterexample_wellformed_panic :
    well_formed_spec ['B'] = true ∧ scan ['B'] = Except.error Panic.scanIdTodo :=
  ⟨rfl, scan_eq_of_scanFuel rfl⟩

/-- C9 (corrected), amended claim: scanning terminates on every input (the
scanners are total functions, each recursive step consuming at least one
character), and for every input whose non-whitespace characters are
decimal digits, lowercase ASCII letters, operators or punctuation — the
well-formed inputs minus the uppercase letters on which `scan_id` panics —
`scan` returns a token sequence. -/
theorem claim9_totality_on_recognized_lowercase :
    ∀ input : List Char,
      (∀ c ∈ input, rustIsWhitespace c = false → recognizedLower c = true) →
      ∃ ts, scan input = Except.ok ts := by
  intro input hyp
  have hs := (scanFuel_spec (2 * input.length + 2) input).1 (Nat.le_refl _)
  obtain ⟨ts, hts⟩ := (scanFuel_total_inv (2 * input.length + 2) input).1 hyp (scan input) hs
  exact ⟨ts, hts⟩

/-- C9 witness: totality applied to the input `"( 12 )"`. -/
theorem claim9_witness :
    ∃ ts, scan ['(', ' ', '1', '2', ' ', ')'] = Except.ok ts :=
  claim9_totality_on_recognized_lowercase ['(', ' ', '1', '2', ' ', ')'] (by decide)

/-! ### Claim C10 -/

theorem scanFuel_no_int_todo : ∀ (fuel : Nat) (input : List Char),
    (∀ e, scanFuel fuel Mode.dispatch input = some (Except.error e) → e = Panic.scanIdTodo) ∧
    ((∀ f r, skip_whitespace input = f :: r → '0' ≤ f ∧ f ≤ '9') →
      ∀ e, scanFuel fuel Mode.lit input = some (Except.error e) → e = Panic.scanIdTodo) ∧
    (∀ e, scanFuel fuel Mode.ident input = some (Except.error e) → e = Panic.scanIdTodo) := by
  intro fuel
  induction fuel with
  | zero =>
    intro input
    refine ⟨?_, ?_, ?_⟩
    · intro e h
      simp [scanFuel] at h
    · intro _ e h
      simp [scanFuel] at h
    · intro e h
      simp [scanFuel] at h
  | succ k ih =>
    intro input
    refine ⟨?_, ?_, ?_⟩
    · intro e h
      cases hsw : skip_whitespace input with
      | nil =>
        rw [scanFuel_nil hsw] at h
        simp at h
      | cons f r =>
        have hnwf : rustIsWhitespace f = false := skip_whitespace_head_not_ws hsw
        have hskip2 : skip_whitespace (f :: r) = f :: r := skip_whitespace_cons_of_neg hnwf
        rcases @scanFuel_dispatch_cases k input f r hsw with
          ⟨h0, he⟩ | ⟨hn0, ha, he⟩ | ⟨hsngl, t0, hlex, hcat0, he⟩ | ⟨hrec, he⟩
        · rw [he] at h
          refine (ih (f :: r)).2.1 ?_ e h
          intro f2 r2 heq2
          rw [hskip2] at heq2
          injection heq2 with e1 e2
          rw [← e1]
          exact h0
        · rw [he] at h
          exact (ih (f :: r)).2.2 e h
        · rw [he] at h
          exact (ih r).1 e (scanFuel_map_error h)
        · rw [he] at h
          exact (ih r).1 e (scanFuel_map_error h)
    · intro hhead e h
      cases hsw : skip_whitespace input with
      | nil =>
        rw [scanFuel_nil hsw] at h
        simp at h
      | cons f r =>
        rcases @scanFuel_lit_cases k input f r hsw with ⟨h0, he⟩ | ⟨h0, he⟩
        · rw [he] at h
          exact (ih ((f :: r).dropWhile rustIsNumeric)).1 e (scanFuel_map_error h)
        · exact absurd (hhead f r hsw) h0
    · intro e h
      cases hsw : skip_whitespace input with
      | nil =>
        rw [scanFuel_nil hsw] at h
        simp at h
      | cons f r =>
        rcases @scanFuel_ident_cases k input f r hsw with ⟨h0, he⟩ | ⟨h0, he⟩
        · rw [he] at h
          exact (ih ((f :: r).dropWhile rustIsAlphabetic)).1 e (scanFuel_map_error h)
        · rw [he, Option.some.injEq, Except.error.injEq] at h
          exact h.symm

/-- C10 (confirmed): whenever `scan` dispatches to `scan_int` the remainder
begins with a decimal digit, so `scan_int`'s `todo!()` fallback is
unreachable through `scan`: the only panic any `scan` call can surface is
`scan_id`'s (never `Panic.scanIntTodo`). -/
theorem claim10_scan_int_todo_unreachable :
    ∀ (input : List Char) (e : Panic),
      scan input = Except.error e → e = Panic.scanIdTodo := by
  intro input e h
  have hs := (scanFuel_spec (2 * input.length + 2) input).1 (Nat.le_refl _)
  rw [h] at hs
  exact (scanFuel_no_int_todo (2 * input.length + 2) input).1 e hs

/-- C10 witness: the only panic the scanner can actually produce, exhibited
on the input `"A"`, is `scan_id`'s todo, as the theorem demands. -/
theorem claim10_witness :
    scan ['A'] = Except.error Panic.scanIdTodo ∧ Panic.scanIdTodo = Panic.scanIdTodo :=
  ⟨scan_eq_of_scanFuel rfl,
    claim10_scan_int_todo_unreachable ['A'] Panic.scanIdTodo (scan_eq_of_scanFuel rfl)⟩

end Picoc
